import Mathlib

/-!
# Verification of the retrieval-augmented answer engine

Shallow embedding of `app/knowledge/rag_advanced.py` (class `EnhancedRAGSystem`).

Modelling conventions:
* Python floats are modelled as exact rationals (`ℚ`).
* Python dicts of string metadata are association lists with last-write-wins
  update (`Dict.set`) and first-match lookup (`Dict.get`).
* External libraries are part of the environment (`Env`): the sentence
  transformer `encode` (fallible: the model may be unloaded), the
  `faiss.normalize_L2` row normalizer, the langchain text splitter
  (`chunk`), the jsonl corpus file and the LLM HTTP endpoint.
* The FAISS `IndexFlatIP` is modelled concretely (`VectorStore`): exact
  inner-product scoring, results sorted by descending score with ties in
  insertion order, at most `min k n` results (no `-1` padding rows).
* Python exceptions are `Except String`; a `try/except` in the source
  becomes a `match` on the `Except` value at the same place.
* The two on-disk cache artifacts are the `FS` component of the `World`;
  the in-memory fields of the Python object are the `EnhancedRAGSystem`
  component.
-/

namespace RagAdvanced

/-- Metadata dictionary: a Python `dict` of string keys/values. -/
abbrev Dict := List (String × String)

/-- `d[k]` lookup returning the first binding of `k`. -/
def Dict.get (d : Dict) (k : String) : Option String :=
  (d.find? (fun p => p.1 == k)).map (·.2)

/-- `d.get(k, dflt)` — Python lookup with default. -/
def Dict.getD (d : Dict) (k dflt : String) : String :=
  (Dict.get d k).getD dflt

/-- `d[k] = v` / `d.update({k: v})`: replace any binding of `k` by `v`. -/
def Dict.set (d : Dict) (k v : String) : Dict :=
  d.filter (fun p => p.1 != k) ++ [(k, v)]

/-- A langchain `Document`: page content plus metadata. -/
structure Document where
  page_content : String
  metadata : Dict
deriving Repr, DecidableEq

/-- One line of the `risk_knowledge.jsonl` corpus file, as the parser sees it:
blank (skipped before parsing), invalid JSON (`json.JSONDecodeError`),
valid JSON missing the `prompt`/`response` key (raises `KeyError`), or a
well-formed record. -/
inductive RawLine where
  | blank
  | invalid
  | missingKey
  | record (prompt response : String) (metadata : Dict)
deriving Repr, DecidableEq

/-- The three documents derived from one well-formed record at line
`line_num` in `_process_knowledge_base`: the combined qa document, the
question-only document and the answer-only document. -/
def deriveDocs (line_num : Nat) (prompt response : String) (md : Dict) : List Document :=
  let metadata := ((Dict.set (Dict.set (Dict.set md "source" "knowledge_base")
      "line_number" (toString line_num)) "type" "qa_pair"))
  [ { page_content := "Вопрос: " ++ prompt ++ "\nОтвет: " ++ response, metadata := metadata },
    { page_content := prompt, metadata := Dict.set metadata "type" "question" },
    { page_content := response, metadata := Dict.set metadata "type" "answer" } ]

/-- The line loop of `_process_knowledge_base`, starting at line number `n`:
accumulates derived documents in order and the line numbers of the JSON
parse warnings; a `KeyError` (well-formed JSON without the expected keys)
propagates out of the loop. -/
def processLines : Nat → List RawLine → Except String (List Document × List Nat)
  | _, [] => .ok ([], [])
  | n, l :: ls =>
    match l with
    | .blank => processLines (n + 1) ls
    | .invalid =>
      match processLines (n + 1) ls with
      | .error e => .error e
      | .ok (ds, ws) => .ok (ds, n :: ws)
    | .missingKey => .error ("KeyError at line " ++ toString n)
    | .record p r md =>
      match processLines (n + 1) ls with
      | .error e => .error e
      | .ok (ds, ws) => .ok (deriveDocs n p r md ++ ds, ws)

/-- Per-line document derivation (specification view of the loop body). -/
def lineDocs (n : Nat) : RawLine → List Document
  | .record p r md => deriveDocs n p r md
  | _ => []

/-- An embedding vector (one row of a numpy float array). -/
abbrev Vec := List ℚ

/-- Inner product of two vectors, as computed by `faiss.IndexFlatIP`. -/
def dot (a b : Vec) : ℚ := (List.zipWith (· * ·) a b).sum

/-- A `faiss.IndexFlatIP(dimension)`: the construction dimension and the
rows added so far, in insertion order. -/
structure VectorStore where
  dim : Nat
  vectors : List Vec
deriving Repr, DecidableEq

/-- Stable descending insertion of a `(score, position)` pair: among equal
scores, the earlier-inserted row stays first. -/
def insertDesc (x : ℚ × Nat) : List (ℚ × Nat) → List (ℚ × Nat)
  | [] => [x]
  | y :: ys => if y.1 ≤ x.1 then x :: y :: ys else y :: insertDesc x ys

/-- `index.search(q, k)`: the `(score, position)` pairs of all rows, ordered
by descending inner product with ties in insertion order, truncated to `k`
entries.  (FAISS pads with `-1` positions when `k` exceeds the row count;
those padding entries carry the float minimum as score, so this model
returns only the `min k n` real rows.) -/
def VectorStore.searchTop (ix : VectorStore) (q : Vec) (k : Nat) : List (ℚ × Nat) :=
  ((ix.vectors.enum.map (fun p => (dot q p.2, p.1))).foldr insertDesc []).take k

/-- The outcome of the `requests.post` call to the LLM endpoint: a raised
exception (connection error, timeout, malformed body), or an HTTP response
with a status code and the extracted message content. -/
inductive LLMResult where
  | exn
  | resp (status : Nat) (content : String)
deriving Repr, DecidableEq

/-- The engine's environment: everything external to the Python object —
the sentence-transformers model, `faiss.normalize_L2`, the langchain text
splitter, the jsonl corpus file and the LLM HTTP endpoint. -/
structure Env where
  /-- whether `SentenceTransformer(model_name)` loads successfully -/
  modelLoads : Bool
  /-- `self.embedding_model.encode([text])[0]`; fallible (the model may be
  `None` or the library may raise) -/
  encode : String → Except String Vec
  /-- `faiss.normalize_L2` applied to one row -/
  normalize : Vec → Vec
  /-- `RecursiveCharacterTextSplitter.split_documents` on one document -/
  chunk : Document → List Document
  /-- the `risk_knowledge.jsonl` file, when it exists -/
  corpus : Option (List RawLine)
  /-- the `requests.post(f"…/chat/completions", …)` call, keyed by the
  query and the assembled context (which determine the prompt) -/
  llm : String → String → LLMResult

/-- The two on-disk cache artifacts (`documents_cache.json`,
`embeddings_cache.npy`), each `none` when the file is absent. -/
structure FS where
  documents_cache : Option (List Document)
  embeddings_cache : Option (List Vec)
deriving Repr, DecidableEq

/-- The in-memory fields of the Python `EnhancedRAGSystem` object. -/
structure EnhancedRAGSystem where
  is_initialized : Bool
  documents : List Document
  document_embeddings : Option (List Vec)
  vector_store : Option VectorStore
deriving Repr, DecidableEq

/-- The engine state: the in-memory object plus the cache files. -/
structure World where
  sys : EnhancedRAGSystem
  fs : FS
deriving Repr, DecidableEq

/-- `_load_documents`: documents-cache hit loads the cache verbatim;
a miss runs `_process_knowledge_base` (derivation then chunking) and
writes the cache.  On an exception the object is unchanged. -/
def load_documents (w : World) (env : Env) : Except String World :=
  match w.fs.documents_cache with
  | some docs => .ok { w with sys := { w.sys with documents := docs } }
  | none =>
    let processed :=
      match env.corpus with
      | none => Except.ok ([], [])
      | some lines => processLines 1 lines
    match processed with
    | .error e => .error e
    | .ok (derived, _warnings) =>
      let docs := derived.flatMap env.chunk
      .ok { sys := { w.sys with documents := docs },
            fs := { w.fs with documents_cache := some docs } }

/-- The tail of `_create_vector_index` shared by both cache branches:
`dimension = embeddings.shape[1]`, construct the flat index, normalize the
embedding rows in place, add them.  On an exception the partially mutated
object is returned with the error. -/
def buildIndex (w : World) (env : Env) (embs : List Vec) : Except (World × String) World :=
  match embs.head? with
  | none => .error (w, "IndexError: shape[1] of an empty array")
  | some v0 =>
    let d := v0.length
    let normed := embs.map env.normalize
    let emptyStore : VectorStore := ⟨d, []⟩
    let fullStore : VectorStore := ⟨d, normed⟩
    let sys1 := { w.sys with
                  vector_store := some emptyStore,
                  document_embeddings := some normed }
    if normed.all (fun r => r.length = d) then
      .ok { w with sys := { sys1 with vector_store := some fullStore } }
    else .error ({ w with sys := sys1 }, "faiss add: dimension mismatch")

/-- The embedding loop of `_create_vector_index`: encode the texts in
order, short-circuiting on the first raised exception.  (The source
batches in groups of 32 purely to bound memory; the resulting sequence
and the failure behavior are the same.) -/
def encodeAll (f : String → Except String Vec) : List String → Except String (List Vec)
  | [] => .ok []
  | t :: ts =>
    match f t with
    | .error e => .error e
    | .ok v =>
      match encodeAll f ts with
      | .error e => .error e
      | .ok vs => .ok (v :: vs)

/-- `_create_vector_index`: embeddings-cache hit loads the rows verbatim;
a miss encodes every document in order (batched in the source, which does
not change the resulting sequence), writes the cache (pre-normalization),
then both branches build the flat index.  `np.vstack` of zero batches
raises before anything is mutated. -/
def create_vector_index (w : World) (env : Env) : Except (World × String) World :=
  match w.fs.embeddings_cache with
  | some embs =>
    buildIndex { w with sys := { w.sys with document_embeddings := some embs } } env embs
  | none =>
    match encodeAll env.encode (w.sys.documents.map (·.page_content)) with
    | .error e => .error (w, e)
    | .ok embs =>
      if embs.isEmpty then .error (w, "ValueError: np.vstack of an empty sequence")
      else
        buildIndex { sys := { w.sys with document_embeddings := some embs },
                     fs := { w.fs with embeddings_cache := some embs } } env embs

/-- The source's `initialize` method (that identifier is a Lean keyword):
load the embedding model, the documents and the vector index; any
exception is caught and reported as `false`, leaving whatever partial
mutations had already happened. -/
def initEngine (w : World) (env : Env) : World × Bool :=
  if env.modelLoads then
    match load_documents w env with
    | .error _ => (w, false)
    | .ok w1 =>
      match create_vector_index w1 env with
      | .error (w2, _) => (w2, false)
      | .ok w2 => ({ w2 with sys := { w2.sys with is_initialized := true } }, true)
  else (w, false)

/-- A search hit returned to callers. -/
structure SearchResult where
  content : String
  metadata : Dict
  score : ℚ
  source : String
deriving Repr, DecidableEq

/-- Build one `SearchResult` from a document and its score. -/
def mkResult (doc : Document) (score : ℚ) : SearchResult :=
  { content := doc.page_content, metadata := doc.metadata, score := score,
    source := Dict.getD doc.metadata "source" "unknown" }

/-- The result loop of `search`: keep the pairs whose score passes the
threshold and map each surviving position through `self.documents[idx]`
(an out-of-range position raises `IndexError`). -/
def collectResults (docs : List Document) (thr : ℚ) :
    List (ℚ × Nat) → Except String (List SearchResult)
  | [] => .ok []
  | (score, idx) :: rest =>
    if thr ≤ score then
      match docs.get? idx with
      | none => .error "IndexError: documents[idx]"
      | some doc =>
        match collectResults docs thr rest with
        | .error e => .error e
        | .ok rs => .ok (mkResult doc score :: rs)
    else collectResults docs thr rest

/-- The `try` body of `search`: embed and normalize the query, run the
index search, filter and map the hits. -/
def searchBody (w : World) (env : Env) (query : String) (top_k : Nat) (thr : ℚ) :
    Except String (List SearchResult) :=
  match env.encode query with
  | .error e => .error e
  | .ok qe =>
    let qn := env.normalize qe
    match w.sys.vector_store with
    | none => .error "AttributeError: NoneType has no attribute search"
    | some ix =>
      if qn.length = ix.dim then collectResults w.sys.documents thr (ix.searchTop qn top_k)
      else .error "faiss search: dimension mismatch"

/-- `search(query, top_k=5, score_threshold=0.5)`: an uninitialized engine
returns `[]` immediately; any exception in the body is caught and yields
`[]`. -/
def search (w : World) (env : Env) (query : String)
    (top_k : Nat := 5) (score_threshold : ℚ := 1/2) : List SearchResult :=
  if w.sys.is_initialized then
    match searchBody w env query top_k score_threshold with
    | .ok rs => rs
    | .error _ => []
  else []

/-- The RAG response returned to the chat layer. -/
structure RAGResponse where
  answer : String
  sources : List SearchResult
  confidence : ℚ
  context_used : String
deriving Repr, DecidableEq

/-- The context-formation loop of `generate_answer`: walk the ranked
results keeping a running total of content lengths; a result is taken only
while the running total stays within `context_limit`, and the first result
that would exceed it stops the loop (`break`), excluding it and everything
after it.  Returns the collected content parts and the used sources. -/
def assemble : List SearchResult → Nat → Nat → List String × List SearchResult
  | [], _, _ => ([], [])
  | r :: rs, limit, len =>
    if len + r.content.length ≤ limit then
      let t := assemble rs limit (len + r.content.length)
      (r.content :: t.1, r :: t.2)
    else ([], [])

/-- `_calculate_confidence`: `0.7 * mean(top-3 scores) + 0.3 *
min(len(context)/1000, 1.0)`, capped above at `1.0` (the source applies
`min(confidence, 1.0)` only — there is no lower clamp). -/
def calculate_confidence (search_results : List SearchResult) (context : String) : ℚ :=
  if search_results.isEmpty then 0
  else
    let top_scores := (search_results.take 3).map (·.score)
    let avg_score := top_scores.sum / (top_scores.length : ℚ)
    let context_factor := min ((context.length : ℚ) / 1000) 1
    let confidence := avg_score * (7/10) + context_factor * (3/10)
    min confidence 1

/-- `_generate_llm_response`: POSTs the grounding prompt; a 200 response
yields the stripped message content, a non-200 status yields the fixed
"model unavailable" text, and any raised exception (transport error,
timeout, malformed body) yields the fixed "generation error" text.  This
method never raises. -/
def generate_llm_response (env : Env) (query context : String) : String :=
  match env.llm query context with
  | .exn => "Извините, произошла ошибка при генерации ответа."
  | .resp status content =>
    if status = 200 then content.trim
    else "Извините, не удалось сгенерировать ответ из-за недоступности AI-модели."

/-- The fixed response of `generate_answer` on an uninitialized engine. -/
def notInitializedResponse : RAGResponse :=
  { answer := "RAG-система не инициализирована", sources := [], confidence := 0,
    context_used := "" }

/-- The fixed response of `generate_answer` when retrieval finds nothing. -/
def noInfoResponse : RAGResponse :=
  { answer := "Извините, не удалось найти релевантную информацию по вашему запросу.",
    sources := [], confidence := 0, context_used := "" }

/-- `generate_answer(query, context_limit=2000)`: uninitialized ⇒ fixed
response; retrieval via `self.search(query, top_k=10)` (default threshold
`0.5`); empty retrieval ⇒ fixed response; otherwise assemble the context,
call the LLM (which internally degrades to fixed texts on failure),
compute the confidence and return the full response.  Every sub-operation
of the `try` body handles its own exceptions, so the `except` branch is
defensive and the method always returns a `RAGResponse`. -/
def generate_answer (w : World) (env : Env) (query : String)
    (context_limit : Nat := 2000) : RAGResponse :=
  if w.sys.is_initialized then
    let search_results := search w env query 10 (1/2)
    if search_results.isEmpty then noInfoResponse
    else
      let packed := assemble search_results context_limit 0
      let context := String.intercalate "\n\n" packed.1
      let answer := generate_llm_response env query context
      let confidence := calculate_confidence search_results context
      { answer := answer, sources := packed.2, confidence := confidence,
        context_used := context }
  else notInitializedResponse

/-- `add_document(content, metadata)`: the document is appended to the
in-memory list first; then the content is embedded (fallible), normalized
and added to the index (fallible: the store may be `None`, or the row
dimension may not match); on success the embedding matrix and its cache
file are extended when the matrix is present (`np.vstack` raises on a
width mismatch, after the index was already extended).  Any exception is
caught and reported as `false`, leaving the partial mutations in place. -/
def add_document (w : World) (env : Env) (content : String) (metadata : Dict) :
    World × Bool :=
  let doc : Document := { page_content := content, metadata := metadata }
  let w1 := { w with sys := { w.sys with documents := w.sys.documents ++ [doc] } }
  match env.encode content with
  | .error _ => (w1, false)
  | .ok e =>
    let emb := env.normalize e
    match w1.sys.vector_store with
    | none => (w1, false)
    | some ix =>
      if emb.length = ix.dim then
        let ix' : VectorStore := ⟨ix.dim, ix.vectors ++ [emb]⟩
        let w2 := { w1 with sys := { w1.sys with vector_store := some ix' } }
        match w2.sys.document_embeddings with
        | none => (w2, true)
        | some de =>
          if de.all (fun r => r.length = emb.length) then
            let de' := de ++ [emb]
            ({ w2 with
               sys := { w2.sys with document_embeddings := some de' },
               fs := { w2.fs with embeddings_cache := some de' } }, true)
          else (w2, false)
      else (w1, false)

/-- `clear_cache`: unlink both cache files; nothing else is touched. -/
def clear_cache (w : World) : World :=
  { w with fs := { documents_cache := none, embeddings_cache := none } }

/-! ## Helper definitions and concrete instances used by the theorems -/

/-- A string of `n` copies of `a` (a content of a prescribed length). -/
def aStr (n : Nat) : String := String.mk (List.replicate n 'a')

/-- Whether a corpus line fails JSON parsing. -/
def isInvalid : RawLine → Bool
  | .invalid => true
  | _ => false

/-- Total character length of the contents of a result list. -/
def contentLen (rs : List SearchResult) : Nat := (rs.map (·.content.length)).sum

/-- A result with the given content (rank score 1, empty metadata). -/
def resOfContent (s : String) : SearchResult :=
  { content := s, metadata := [], score := 1, source := "s" }

/-- A result with the given score (content `"x"`, empty metadata). -/
def resOfScore (q : ℚ) : SearchResult :=
  { content := "x", metadata := [], score := q, source := "s" }

/-- A baseline environment: the model loads, everything embeds to the unit
vector `[1]`, normalization and chunking are trivial, there is no corpus
file, and the LLM call raises. -/
def baseEnv : Env :=
  { modelLoads := true,
    encode := fun _ => .ok [1],
    normalize := id,
    chunk := fun d => [d],
    corpus := none,
    llm := fun _ _ => .exn }

/-- A document whose content is `"ab"`. -/
def docAB : Document := { page_content := "ab", metadata := [("source", "knowledge_base")] }

/-- An initialized, aligned engine holding the single document `docAB`
embedded as `[1]`. -/
def worldAB : World :=
  { sys := { is_initialized := true, documents := [docAB],
             document_embeddings := some [[1]], vector_store := some ⟨1, [[1]]⟩ },
    fs := { documents_cache := none, embeddings_cache := none } }

/-- An uninitialized engine with empty fields. -/
def emptyWorld : World :=
  { sys := { is_initialized := false, documents := [], document_embeddings := none,
             vector_store := none },
    fs := { documents_cache := none, embeddings_cache := none } }

/-- C3 scenario: the documents cache is absent but the embeddings cache
still holds two rows, while the corpus derives six documents. -/
def staleCacheWorld : World :=
  { sys := { is_initialized := false, documents := [], document_embeddings := none,
             vector_store := none },
    fs := { documents_cache := none, embeddings_cache := some [[1], [2]] } }

/-- C3 scenario environment: a corpus of two well-formed records. -/
def staleCacheEnv : Env :=
  { baseEnv with corpus := some [.record "q1" "r1" [], .record "q2" "r2" []] }

/-- An environment whose embedding call raises (the model is unloaded). -/
def encodeFailEnv : Env := { baseEnv with encode := fun _ => .error "model is None" }

/-- C8 scenario: the index holds two vectors (scores 1 and 9/20 against
the query embedding `[1]`) but the document list has only one entry, so
position 1 is out of range. -/
def misalignedWorld : World :=
  { sys := { is_initialized := true, documents := [docAB],
             document_embeddings := some [[1], [9/20]],
             vector_store := some ⟨1, [[1], [9/20]]⟩ },
    fs := { documents_cache := none, embeddings_cache := none } }

/-! ## Theorems -/

/-- C7: when the engine is not initialized, `search` returns the empty
result list for every query, `top_k` and threshold, and `generate_answer`
returns the fixed "system not initialized" response, whose confidence is
`0` and whose sources list is empty. -/
theorem C7_uninitialized (w : World) (env : Env) (h : w.sys.is_initialized = false) :
    (∀ q k t, search w env q k t = []) ∧
    (∀ q cl, generate_answer w env q cl = notInitializedResponse) ∧
    notInitializedResponse.confidence = 0 ∧ notInitializedResponse.sources = [] := by
  refine ⟨fun q k t => ?_, fun q cl => ?_, rfl, rfl⟩ <;> simp [search, generate_answer, h]

/-- Witness for C7 at a concrete uninitialized engine. -/
theorem C7_uninitialized_witness :
    emptyWorld.sys.is_initialized = false ∧
    search emptyWorld baseEnv "q" 5 (1/2) = [] ∧
    generate_answer emptyWorld baseEnv "q" 2000 = notInitializedResponse :=
  ⟨rfl, (C7_uninitialized emptyWorld baseEnv rfl).1 "q" 5 (1/2),
    (C7_uninitialized emptyWorld baseEnv rfl).2.1 "q" 2000⟩

/-- C10: `clear_cache` deletes exactly the two cache files, leaves every
in-memory field unchanged, and every `search` or `generate_answer` call
issued afterwards (before the next initialization) returns the same result
as before the `clear_cache` call. -/
theorem C10_clear_cache_frame (w : World) :
    (clear_cache w).sys = w.sys ∧
    (clear_cache w).fs.documents_cache = none ∧
    (clear_cache w).fs.embeddings_cache = none ∧
    (∀ env q k t, search (clear_cache w) env q k t = search w env q k t) ∧
    (∀ env q cl, generate_answer (clear_cache w) env q cl = generate_answer w env q cl) := by
  obtain ⟨sys, fs⟩ := w
  exact ⟨rfl, rfl, rfl, fun _ _ _ _ => rfl, fun _ _ _ => rfl⟩

/-- Case characterization of `generate_answer` on an uninitialized engine. -/
theorem generate_answer_eq_of_uninit (w : World) (env : Env) (q : String) (cl : Nat)
    (hinit : w.sys.is_initialized = false) :
    generate_answer w env q cl = notInitializedResponse := by
  simp [generate_answer, hinit]

/-- Case characterization of `generate_answer` when retrieval is empty. -/
theorem generate_answer_eq_of_empty (w : World) (env : Env) (q : String) (cl : Nat)
    (hinit : w.sys.is_initialized = true) (hs : search w env q 10 (1/2) = []) :
    generate_answer w env q cl = noInfoResponse := by
  simp only [generate_answer, hinit, hs]
  simp

/-- Case characterization of `generate_answer` when retrieval is
non-empty: the response is assembled from the packed context, the LLM
adapter's text and the computed confidence. -/
theorem generate_answer_eq_of_ne (w : World) (env : Env) (q : String) (cl : Nat)
    (hinit : w.sys.is_initialized = true) (rs : List SearchResult)
    (hrs : search w env q 10 (1/2) = rs) (hne : rs ≠ []) :
    generate_answer w env q cl =
      { answer := generate_llm_response env q (String.intercalate "\n\n" (assemble rs cl 0).1),
        sources := (assemble rs cl 0).2,
        confidence := calculate_confidence rs (String.intercalate "\n\n" (assemble rs cl 0).1),
        context_used := String.intercalate "\n\n" (assemble rs cl 0).1 } := by
  simp only [generate_answer, hinit, hrs]
  simp [hne]

/-- C6: `generate_answer` never raises: the embedded function is total
(each fallible sub-operation is handled exactly where the source handles
it) and every degraded condition — uninitialized engine, empty retrieval,
generation failure — is encoded in the returned response's answer,
confidence and sources fields. -/
theorem C6_always_wellformed (w : World) (env : Env) (q : String) (cl : Nat) :
    (w.sys.is_initialized = false → generate_answer w env q cl = notInitializedResponse) ∧
    (w.sys.is_initialized = true → search w env q 10 (1/2) = [] →
       generate_answer w env q cl = noInfoResponse) ∧
    (w.sys.is_initialized = true → ∀ rs, search w env q 10 (1/2) = rs → rs ≠ [] →
       generate_answer w env q cl =
         { answer := generate_llm_response env q (String.intercalate "\n\n" (assemble rs cl 0).1),
           sources := (assemble rs cl 0).2,
           confidence := calculate_confidence rs (String.intercalate "\n\n" (assemble rs cl 0).1),
           context_used := String.intercalate "\n\n" (assemble rs cl 0).1 }) :=
  ⟨generate_answer_eq_of_uninit w env q cl,
   generate_answer_eq_of_empty w env q cl,
   fun hinit rs hrs hne => generate_answer_eq_of_ne w env q cl hinit rs hrs hne⟩

/-- Witness for C6 on a concrete initialized engine with one retrieved
result, discharging the hypotheses of the non-empty branch. -/
theorem C6_always_wellformed_witness :
    worldAB.sys.is_initialized = true ∧
    generate_answer worldAB baseEnv "hello" 2000 =
      { answer := generate_llm_response baseEnv "hello"
          (String.intercalate "\n\n" (assemble [mkResult docAB 1] 2000 0).1),
        sources := (assemble [mkResult docAB 1] 2000 0).2,
        confidence := calculate_confidence [mkResult docAB 1]
          (String.intercalate "\n\n" (assemble [mkResult docAB 1] 2000 0).1),
        context_used := String.intercalate "\n\n" (assemble [mkResult docAB 1] 2000 0).1 } := by
  have h1 : search worldAB baseEnv "hello" 10 (1/2) = [mkResult docAB 1] := by
    norm_num [search, searchBody, worldAB, baseEnv, VectorStore.searchTop, dot, insertDesc,
      collectResults, List.enum, List.enumFrom, mkResult, docAB, Dict.getD, Dict.get]
  exact ⟨rfl, (C6_always_wellformed worldAB baseEnv "hello" 2000).2.2 rfl
    [mkResult docAB 1] h1 (by simp)⟩

/-- C1 (amended): when retrieval is non-empty and the Generation Client
call fails (raises, or returns a non-200 status), `generate_answer`
returns the packed sources and the normally computed confidence, with one
of the two fixed generation-failure answers — the confidence is not forced
to `0`. -/
theorem C1_amended (w : World) (env : Env) (q : String) (cl : Nat)
    (hinit : w.sys.is_initialized = true)
    (hne : search w env q 10 (1/2) ≠ [])
    (hfail : ∀ st c, env.llm q (String.intercalate "\n\n"
        (assemble (search w env q 10 (1/2)) cl 0).1) = LLMResult.resp st c → st ≠ 200) :
    (generate_answer w env q cl).sources = (assemble (search w env q 10 (1/2)) cl 0).2 ∧
    (generate_answer w env q cl).confidence =
      calculate_confidence (search w env q 10 (1/2))
        (String.intercalate "\n\n" (assemble (search w env q 10 (1/2)) cl 0).1) ∧
    ((generate_answer w env q cl).answer =
        "Извините, произошла ошибка при генерации ответа." ∨
     (generate_answer w env q cl).answer =
        "Извините, не удалось сгенерировать ответ из-за недоступности AI-модели.") := by
  have hg := generate_answer_eq_of_ne w env q cl hinit (search w env q 10 (1/2)) rfl hne
  rw [hg]
  refine ⟨rfl, rfl, ?_⟩
  unfold generate_llm_response
  cases hllm : env.llm q (String.intercalate "\n\n"
      (assemble (search w env q 10 (1/2)) cl 0).1) with
  | exn => exact Or.inl rfl
  | resp st c =>
    have := hfail st c hllm
    simp [this]

/-- Witness for C1 (amended) at a concrete engine whose LLM call raises. -/
theorem C1_amended_witness :
    search worldAB baseEnv "hello" 10 (1/2) ≠ [] ∧
    ((generate_answer worldAB baseEnv "hello" 2000).sources =
        (assemble (search worldAB baseEnv "hello" 10 (1/2)) 2000 0).2 ∧
     (generate_answer worldAB baseEnv "hello" 2000).confidence =
        calculate_confidence (search worldAB baseEnv "hello" 10 (1/2))
          (String.intercalate "\n\n"
            (assemble (search worldAB baseEnv "hello" 10 (1/2)) 2000 0).1) ∧
     ((generate_answer worldAB baseEnv "hello" 2000).answer =
         "Извините, произошла ошибка при генерации ответа." ∨
      (generate_answer worldAB baseEnv "hello" 2000).answer =
         "Извините, не удалось сгенерировать ответ из-за недоступности AI-модели.")) := by
  have h1 : search worldAB baseEnv "hello" 10 (1/2) = [mkResult docAB 1] := by
    norm_num [search, searchBody, worldAB, baseEnv, VectorStore.searchTop, dot, insertDesc,
      collectResults, List.enum, List.enumFrom, mkResult, docAB, Dict.getD, Dict.get]
  have hne : search worldAB baseEnv "hello" 10 (1/2) ≠ [] := by rw [h1]; simp
  exact ⟨hne, C1_amended worldAB baseEnv "hello" 2000 rfl hne
    (fun st c h => by exact LLMResult.noConfusion h)⟩

/-- C1 is falsified on the code: a concrete engine where retrieval finds a
result and the LLM call raises, yet the returned confidence is the normal
computed score (`3503/5000`), not `0`.  The sources are populated, so the
failing conjunct of the claim is the zero confidence. -/
theorem C1_counterexample :
    search worldAB baseEnv "hello" 10 (1/2) ≠ [] ∧
    baseEnv.llm "hello" "ab" = LLMResult.exn ∧
    (generate_answer worldAB baseEnv "hello" 2000).sources ≠ [] ∧
    (generate_answer worldAB baseEnv "hello" 2000).answer =
      "Извините, произошла ошибка при генерации ответа." ∧
    (generate_answer worldAB baseEnv "hello" 2000).confidence ≠ 0 := by
  have h1 : search worldAB baseEnv "hello" 10 (1/2) = [mkResult docAB 1] := by
    norm_num [search, searchBody, worldAB, baseEnv, VectorStore.searchTop, dot, insertDesc,
      collectResults, List.enum, List.enumFrom, mkResult, docAB, Dict.getD, Dict.get]
  have h2 : String.intercalate "\n\n" ["ab"] = "ab" := by decide
  have h3 : ("ab" : String).length = 2 := by decide
  have h4 : (mkResult docAB 1).content = "ab" := rfl
  have hg : generate_answer worldAB baseEnv "hello" 2000 =
      { answer := "Извините, произошла ошибка при генерации ответа.",
        sources := [mkResult docAB 1], confidence := 3503/5000, context_used := "ab" } := by
    simp only [generate_answer, h1, show worldAB.sys.is_initialized = true from rfl, if_true]
    norm_num [assemble, h4, h2, h3, calculate_confidence, generate_llm_response, baseEnv,
      mkResult, docAB, Dict.getD, Dict.get]
  refine ⟨by rw [h1]; simp, rfl, by rw [hg]; simp, by rw [hg], by rw [hg]; norm_num⟩

theorem aStr_length (n : Nat) : (aStr n).length = n := by
  simp [aStr, String.length]

theorem contentLen_nil : contentLen [] = 0 := rfl

theorem contentLen_cons (r : SearchResult) (l : List SearchResult) :
    contentLen (r :: l) = r.content.length + contentLen l := by
  simp [contentLen]

/-- Length of the `intercalate` accumulator loop. -/
theorem intercalate_go_length (s : String) :
    ∀ (t : List String) (acc : String),
      (String.intercalate.go acc s t).length =
        acc.length + (t.map String.length).sum + s.length * t.length
  | [], acc => by simp [String.intercalate.go]
  | a :: as, acc => by
    rw [String.intercalate.go, intercalate_go_length s as (acc ++ s ++ a)]
    simp [String.length_append]
    ring

/-- Exact length of a non-empty join: content plus one separator between
consecutive parts. -/
theorem intercalate_length (s : String) (ps : List String) (h : ps ≠ []) :
    (String.intercalate s ps).length =
      (ps.map String.length).sum + s.length * (ps.length - 1) := by
  cases ps with
  | nil => cases h rfl
  | cons a as =>
    show (String.intercalate.go a s as).length = _
    rw [intercalate_go_length]
    simp

/-- The packing loop keeps the running content total within the budget
(or packs nothing at all when the accumulator already exceeds it). -/
theorem assemble_within (rs : List SearchResult) (limit : Nat) :
    ∀ len, len + contentLen (assemble rs limit len).2 ≤ limit ∨
      (assemble rs limit len).2 = [] := by
  induction rs with
  | nil => intro len; right; rfl
  | cons r t ih =>
    intro len
    by_cases h : len + r.content.length ≤ limit
    · rcases ih (len + r.content.length) with h1 | h1
      · left
        simp only [assemble, if_pos h, contentLen_cons]
        omega
      · left
        simp only [assemble, if_pos h, contentLen_cons, h1, contentLen_nil]
        omega
    · right
      simp [assemble, if_neg h]

/-- The packing loop is greedy-prefix: the used results form a prefix of
the ranked list, the parts are their contents, and when a result was left
out, the first one left out would have exceeded the budget. -/
theorem assemble_greedy (rs : List SearchResult) (limit : Nat) :
    ∀ len, ∃ n, (assemble rs limit len).2 = rs.take n ∧
      (assemble rs limit len).1 = (rs.take n).map (·.content) ∧
      (∀ h : n < rs.length,
        limit < len + contentLen (rs.take n) + (rs.get ⟨n, h⟩).content.length) := by
  induction rs with
  | nil => exact fun len => ⟨0, rfl, rfl, fun h => absurd h (by simp)⟩
  | cons r t ih =>
    intro len
    by_cases hc : len + r.content.length ≤ limit
    · obtain ⟨n, h1, h2, h3⟩ := ih (len + r.content.length)
      refine ⟨n + 1, ?_, ?_, ?_⟩
      · simp [assemble, if_pos hc, h1]
      · simp [assemble, if_pos hc, h2]
      · intro hlt
        have := h3 (by simpa using hlt)
        simp only [List.take_succ_cons, contentLen_cons, List.get_cons_succ]
        omega
    · refine ⟨0, by simp [assemble, if_neg hc], by simp [assemble, if_neg hc], ?_⟩
      intro h
      have hget : ((r :: t).get ⟨0, h⟩) = r := rfl
      simp only [List.take_zero, contentLen_nil, hget]
      omega

/-- C2 (amended): the packing loop keeps the total character length of
the included contents within the budget and is greedy-prefix (the first
over-budget result and everything after it is excluded); the returned
context joins the included contents with a two-character separator, so its
length is the content total plus two per included result beyond the
first. -/
theorem C2_amended (results : List SearchResult) (limit : Nat) :
    contentLen (assemble results limit 0).2 ≤ limit ∧
    (∃ n, (assemble results limit 0).2 = results.take n ∧
      (assemble results limit 0).1 = (results.take n).map (·.content) ∧
      (∀ h : n < results.length,
        limit < contentLen (results.take n) + (results.get ⟨n, h⟩).content.length)) ∧
    ((assemble results limit 0).2 ≠ [] →
      (String.intercalate "\n\n" (assemble results limit 0).1).length =
        contentLen (assemble results limit 0).2 + 2 * ((assemble results limit 0).2.length - 1)) := by
  obtain ⟨n, h1, h2, h3⟩ := assemble_greedy results limit 0
  refine ⟨?_, ⟨n, h1, h2, fun h => by simpa using h3 h⟩, fun hne => ?_⟩
  · rcases assemble_within results limit 0 with h | h
    · omega
    · simp [h, contentLen_nil]
  · have hpne : (assemble results limit 0).1 ≠ [] := by
      rw [h1] at hne
      rw [h2]
      simpa using hne
    rw [intercalate_length _ _ hpne, h1, h2]
    have hs : ("\n\n" : String).length = 2 := by decide
    have hcomp : (String.length ∘ fun x : SearchResult => x.content) =
        (fun x : SearchResult => x.content.length) := rfl
    simp [hs, contentLen, List.map_map, hcomp]

/-- Witness for C2 (amended): three results of content length 400 with
budget 900 — exactly the first two are packed, and the theorem's bounds
instantiate there. -/
theorem C2_amended_witness :
    assemble [resOfContent (aStr 400), resOfContent (aStr 400), resOfContent (aStr 400)] 900 0 =
      ([aStr 400, aStr 400], [resOfContent (aStr 400), resOfContent (aStr 400)]) ∧
    contentLen (assemble [resOfContent (aStr 400), resOfContent (aStr 400),
      resOfContent (aStr 400)] 900 0).2 ≤ 900 := by
  have hlen : (aStr 400).length = 400 := aStr_length 400
  have hres : (resOfContent (aStr 400)).content = aStr 400 := rfl
  have ha : assemble [resOfContent (aStr 400), resOfContent (aStr 400),
      resOfContent (aStr 400)] 900 0 =
      ([aStr 400, aStr 400], [resOfContent (aStr 400), resOfContent (aStr 400)]) := by
    simp [assemble, hres, hlen]
  exact ⟨ha, (C2_amended [resOfContent (aStr 400), resOfContent (aStr 400),
    resOfContent (aStr 400)] 900).1⟩

/-- C2 is falsified on the code: the packing loop counts only the contents
against the budget, but the returned context joins the parts with
`"\n\n"`, so with budget `4` and two contents of length `2` the context
has length `6 > 4`. -/
theorem C2_counterexample :
    contentLen (assemble [resOfContent "ab", resOfContent "cd"] 4 0).2 = 4 ∧
    4 < (String.intercalate "\n\n"
          (assemble [resOfContent "ab", resOfContent "cd"] 4 0).1).length := by decide

/-- C3: evaluation at the failing input.  With the documents cache absent
but the embeddings cache still holding two rows, `initialize` succeeds
while recomputing six documents from the corpus and loading the two stale
embeddings: the vector array and the document list are misaligned. -/
theorem C3_stale_cache_misalignment :
    (initEngine staleCacheWorld staleCacheEnv).2 = true ∧
    (initEngine staleCacheWorld staleCacheEnv).1.sys.documents.length = 6 ∧
    (initEngine staleCacheWorld staleCacheEnv).1.sys.vector_store =
      some ⟨1, [[1], [2]]⟩ ∧
    (initEngine staleCacheWorld staleCacheEnv).1.sys.documents.length ≠ 2 := by decide

/-- The embedding loop yields one vector per input text. -/
theorem encodeAll_ok_length (f : String → Except String Vec) :
    ∀ xs ys, encodeAll f xs = .ok ys → ys.length = xs.length := by
  intro xs
  induction xs with
  | nil => intro ys h; cases h; rfl
  | cons t ts ih =>
    intro ys h
    unfold encodeAll at h
    cases hf : f t with
    | error e => rw [hf] at h; cases h
    | ok v =>
      rw [hf] at h
      cases he : encodeAll f ts with
      | error e => rw [he] at h; cases h
      | ok vs => rw [he] at h; cases h; simp [ih vs he]

/-- `_load_documents` never touches the embeddings cache. -/
theorem load_documents_emb (w : World) (env : Env) (w1 : World)
    (h : load_documents w env = .ok w1) :
    w1.fs.embeddings_cache = w.fs.embeddings_cache := by
  unfold load_documents at h
  cases hdc : w.fs.documents_cache with
  | some docs => rw [hdc] at h; cases h; rfl
  | none =>
    rw [hdc] at h
    cases hp : (match env.corpus with
      | none => Except.ok ([], [])
      | some lines => processLines 1 lines) with
    | error e => rw [hp] at h; cases h
    | ok pr =>
      obtain ⟨derived, warns⟩ := pr
      rw [hp] at h
      cases h
      rfl

/-- A successful `buildIndex` on a non-empty row list leaves the document
list unchanged and stores exactly the normalized rows. -/
theorem buildIndex_ok (w : World) (env : Env) (v0 : Vec) (vt : List Vec) (w2 : World)
    (h : buildIndex w env (v0 :: vt) = .ok w2) :
    w2.sys.documents = w.sys.documents ∧
    w2.sys.vector_store = some ⟨v0.length, (v0 :: vt).map env.normalize⟩ := by
  have h' : (if (((v0 :: vt).map env.normalize).all (fun r => r.length = v0.length)) = true
      then Except.ok
        ({ sys :=
             { w.sys with
               document_embeddings := some ((v0 :: vt).map env.normalize)
               vector_store := some ⟨v0.length, (v0 :: vt).map env.normalize⟩ }
           fs := w.fs } : World)
      else Except.error
        (({ sys :=
              { w.sys with
                document_embeddings := some ((v0 :: vt).map env.normalize)
                vector_store := some ⟨v0.length, []⟩ }
            fs := w.fs } : World), "faiss add: dimension mismatch")) = Except.ok w2 := h
  by_cases hall : (((v0 :: vt).map env.normalize).all (fun r => r.length = v0.length)) = true
  · rw [if_pos hall] at h'
    cases h'
    exact ⟨rfl, rfl⟩
  · rw [if_neg hall] at h'
    cases h'

/-- A successful index build with no embeddings cache produces a vector
store aligned with the (unchanged) document list. -/
theorem create_fresh_aligned (w : World) (env : Env) (w2 : World)
    (hfresh : w.fs.embeddings_cache = none)
    (h : create_vector_index w env = .ok w2) :
    w2.sys.documents = w.sys.documents ∧
    ∃ ix, w2.sys.vector_store = some ix ∧
      ix.vectors.length = w.sys.documents.length := by
  unfold create_vector_index at h
  rw [hfresh] at h
  have h' : (match encodeAll env.encode (w.sys.documents.map (·.page_content)) with
      | Except.error e => Except.error (w, e)
      | Except.ok embs =>
        if embs.isEmpty = true then
          Except.error (w, "ValueError: np.vstack of an empty sequence")
        else buildIndex
          { sys := { w.sys with document_embeddings := some embs }
            fs := { w.fs with embeddings_cache := some embs } } env embs) =
      Except.ok w2 := h
  cases hE : encodeAll env.encode (w.sys.documents.map (·.page_content)) with
  | error e =>
    rw [hE] at h'
    exact absurd h' (by simp)
  | ok embs =>
    rw [hE] at h'
    have hlen : embs.length = w.sys.documents.length := by
      rw [encodeAll_ok_length env.encode _ _ hE]
      simp
    cases embs with
    | nil => simp at h'
    | cons v0 vt =>
      have h2 : buildIndex
          { sys := { w.sys with document_embeddings := some (v0 :: vt) }
            fs := { w.fs with embeddings_cache := some (v0 :: vt) } } env (v0 :: vt) =
          Except.ok w2 := h'
      obtain ⟨hdocs, hstore⟩ := buildIndex_ok _ env v0 vt w2 h2
      refine ⟨hdocs, ⟨v0.length, (v0 :: vt).map env.normalize⟩, hstore, ?_⟩
      simpa using hlen

/-- C4 (amended): after a successful fresh index build (no embeddings
cache) the vector count equals the document count, and a successful
`add_document` appends exactly one document and one vector, preserving the
equality; the atomicity clause of the original claim fails
(`C4_counterexample`). -/
theorem C4_amended :
    (∀ w env, w.fs.embeddings_cache = none → (initEngine w env).2 = true →
      ∃ ix, (initEngine w env).1.sys.vector_store = some ix ∧
        ix.vectors.length = (initEngine w env).1.sys.documents.length) ∧
    (∀ w env c md, (add_document w env c md).2 = true →
      (add_document w env c md).1.sys.documents.length = w.sys.documents.length + 1 ∧
      ∃ ix ix', w.sys.vector_store = some ix ∧
        (add_document w env c md).1.sys.vector_store = some ix' ∧
        ix'.vectors.length = ix.vectors.length + 1) := by
  constructor
  · intro w env hfresh hsucc
    by_cases hm : env.modelLoads = true
    · cases hld : load_documents w env with
      | error e =>
        have hred : initEngine w env = (w, false) := by
          simp only [initEngine, hm, hld, if_true]
        rw [hred] at hsucc
        exact absurd hsucc (by simp)
      | ok w1 =>
        cases hcv : create_vector_index w1 env with
        | error p =>
          obtain ⟨pw, ps⟩ := p
          have hred : initEngine w env = (pw, false) := by
            simp only [initEngine, hm, hld, hcv, if_true]
          rw [hred] at hsucc
          exact absurd hsucc (by simp)
        | ok w2 =>
          have hred : initEngine w env =
              ({ w2 with sys := { w2.sys with is_initialized := true } }, true) := by
            simp only [initEngine, hm, hld, hcv, if_true]
          rw [hred]
          have h1 : w1.fs.embeddings_cache = none := by
            rw [load_documents_emb w env w1 hld, hfresh]
          obtain ⟨hdocs, ix, hix, hlen⟩ := create_fresh_aligned w1 env w2 h1 hcv
          exact ⟨ix, hix, by simpa [hdocs] using hlen⟩
    · have hm' : env.modelLoads = false := by simpa using hm
      have hred : initEngine w env = (w, false) := by
        simp only [initEngine, hm', Bool.false_eq_true, if_false]
      rw [hred] at hsucc
      exact absurd hsucc (by simp)
  · intro w env c md hsucc
    cases hf : env.encode c with
    | error e =>
      have hred : (add_document w env c md).2 = false := by
        simp only [add_document, hf]
      rw [hred] at hsucc
      exact absurd hsucc (by simp)
    | ok e =>
      cases hvs : w.sys.vector_store with
      | none =>
        have hred : (add_document w env c md).2 = false := by
          simp only [add_document, hf, hvs]
        rw [hred] at hsucc
        exact absurd hsucc (by simp)
      | some ix =>
        by_cases hdim : (env.normalize e).length = ix.dim
        · cases hde : w.sys.document_embeddings with
          | none =>
            refine ⟨?_, ix, ⟨ix.dim, ix.vectors ++ [env.normalize e]⟩, rfl, ?_, by simp⟩ <;>
            · simp only [add_document, hf, hvs, hde]
              rw [if_pos hdim]
              try simp
          | some de =>
            by_cases hall : de.all (fun r => r.length = (env.normalize e).length) = true
            · refine ⟨?_, ix, ⟨ix.dim, ix.vectors ++ [env.normalize e]⟩, rfl, ?_, by simp⟩ <;>
              · simp only [add_document, hf, hvs, hde]
                rw [if_pos hdim, if_pos hall]
                try simp
            · have hred : (add_document w env c md).2 = false := by
                simp only [add_document, hf, hvs, hde]
                rw [if_pos hdim, if_neg hall]
              rw [hred] at hsucc
              exact absurd hsucc (by simp)
        · have hred : (add_document w env c md).2 = false := by
            simp only [add_document, hf, hvs]
            rw [if_neg hdim]
          rw [hred] at hsucc
          exact absurd hsucc (by simp)

/-- Witness for C4 (amended): a fresh build over a two-record corpus ends
aligned, and a successful `add_document` on the aligned one-document
engine grows the document list by one. -/
theorem C4_amended_witness :
    (emptyWorld.fs.embeddings_cache = none ∧
     (initEngine emptyWorld staleCacheEnv).2 = true ∧
     ∃ ix, (initEngine emptyWorld staleCacheEnv).1.sys.vector_store = some ix ∧
       ix.vectors.length = (initEngine emptyWorld staleCacheEnv).1.sys.documents.length) ∧
    ((add_document worldAB baseEnv "new" []).2 = true ∧
     (add_document worldAB baseEnv "new" []).1.sys.documents.length =
       worldAB.sys.documents.length + 1) := by
  refine ⟨⟨rfl, by decide, ?_⟩, ⟨by decide, ?_⟩⟩
  · exact C4_amended.1 emptyWorld staleCacheEnv rfl (by decide)
  · exact (C4_amended.2 worldAB baseEnv "new" [] (by decide)).1

/-- C4 is falsified on the code: `add_document` appends the document
before embedding it, so when the embedding call raises, the call returns
`false` with the document list grown to `2` while the index still holds
`1` vector — the invariant is broken and the mutation is not rolled
back. -/
theorem C4_counterexample :
    (add_document worldAB encodeFailEnv "new" []).2 = false ∧
    (add_document worldAB encodeFailEnv "new" []).1.sys.documents.length = 2 ∧
    (add_document worldAB encodeFailEnv "new" []).1.sys.vector_store = some ⟨1, [[1]]⟩ ∧
    (add_document worldAB encodeFailEnv "new" []).1.sys.documents.length ≠ 1 := by decide

/-- C5 (amended): the confidence equals the documented formula clamped
from above at `1` (no lower clamp); the upper bound holds for any input,
the lower bound holds whenever every score is nonnegative (as search's
threshold guarantees), and for top-3 scores `[0.9, 0.8, 0.7]` with context
length `1000` it evaluates to `0.86`. -/
theorem C5_amended :
    (∀ rs ctx, rs ≠ [] →
      calculate_confidence rs ctx =
        min ((((rs.take 3).map (·.score)).sum / (((rs.take 3).map (·.score)).length : ℚ)) * (7/10)
             + (min ((ctx.length : ℚ) / 1000) 1) * (3/10)) 1) ∧
    (∀ rs ctx, calculate_confidence rs ctx ≤ 1) ∧
    (∀ rs ctx, (∀ r ∈ rs, 0 ≤ r.score) → 0 ≤ calculate_confidence rs ctx) ∧
    calculate_confidence [resOfScore (9/10), resOfScore (8/10), resOfScore (7/10)] (aStr 1000)
      = 86/100 := by
  refine ⟨?_, ?_, ?_, ?_⟩
  · intro rs ctx hne
    have h : rs.isEmpty = false := by simpa using hne
    simp only [calculate_confidence, h, Bool.false_eq_true, if_false]
  · intro rs ctx
    unfold calculate_confidence
    by_cases h : rs.isEmpty = true
    · rw [if_pos h]
      norm_num
    · rw [if_neg h]
      exact min_le_right _ _
  · intro rs ctx hpos
    unfold calculate_confidence
    by_cases h : rs.isEmpty = true
    · rw [if_pos h]
    · rw [if_neg h]
      have hsum : 0 ≤ ((rs.take 3).map (·.score)).sum := by
        apply List.sum_nonneg
        intro x hx
        obtain ⟨r, hr, hxe⟩ := List.mem_map.mp hx
        exact hxe ▸ hpos r (List.mem_of_mem_take hr)
      have hlen : (0:ℚ) ≤ (((rs.take 3).map (·.score)).length : ℚ) := by positivity
      have hdiv : 0 ≤ ((rs.take 3).map (·.score)).sum /
          (((rs.take 3).map (·.score)).length : ℚ) := div_nonneg hsum hlen
      have hfac : (0:ℚ) ≤ min ((ctx.length : ℚ)/1000) 1 :=
        le_min (by positivity) (by norm_num)
      exact le_min (add_nonneg (mul_nonneg hdiv (by norm_num)) (mul_nonneg hfac (by norm_num)))
        (by norm_num)
  · have h1000 : (aStr 1000).length = 1000 := aStr_length 1000
    simp [calculate_confidence, resOfScore, h1000]
    norm_num

/-- Witness for C5 (amended): the bounds instantiated at a nonnegative
single-score list. -/
theorem C5_amended_witness :
    ((∀ r ∈ [resOfScore (9/10)], (0:ℚ) ≤ r.score) ∧
      0 ≤ calculate_confidence [resOfScore (9/10)] "" ∧
      calculate_confidence [resOfScore (9/10)] "" ≤ 1) := by
  have hpos : ∀ r ∈ [resOfScore (9/10)], (0:ℚ) ≤ r.score := by
    intro r hr
    simp only [List.mem_singleton] at hr
    rw [hr]
    norm_num [resOfScore]
  exact ⟨hpos, C5_amended.2.2.1 [resOfScore (9/10)] "" hpos,
    C5_amended.2.1 [resOfScore (9/10)] ""⟩

/-- C5 is falsified on the code: `_calculate_confidence` applies only
`min(confidence, 1.0)`; there is no lower clamp, so a result list with a
negative similarity score yields a negative confidence. -/
theorem C5_counterexample :
    calculate_confidence [resOfScore (-1)] "" < 0 := by
  norm_num [calculate_confidence, resOfScore]

/-- Membership in a descending insertion comes from the inserted element
or the original list. -/
theorem mem_insertDesc (x a : ℚ × Nat) (l : List (ℚ × Nat)) :
    x ∈ insertDesc a l → x = a ∨ x ∈ l := by
  induction l with
  | nil =>
    intro h
    simp only [insertDesc] at h
    exact Or.inl (by simpa using h)
  | cons y ys ih =>
    intro h
    unfold insertDesc at h
    by_cases hc : y.1 ≤ a.1
    · rw [if_pos hc] at h
      rcases List.mem_cons.mp h with h1 | h1
      · exact Or.inl h1
      · exact Or.inr h1
    · rw [if_neg hc] at h
      rcases List.mem_cons.mp h with h1 | h1
      · exact Or.inr (by simp [h1])
      · rcases ih h1 with h2 | h2
        · exact Or.inl h2
        · exact Or.inr (List.mem_cons_of_mem _ h2)

/-- Membership in the sorted pair list comes from the unsorted one. -/
theorem mem_sortDesc (x : ℚ × Nat) (l : List (ℚ × Nat)) :
    x ∈ l.foldr insertDesc [] → x ∈ l := by
  induction l with
  | nil => intro h; simp at h
  | cons a t ih =>
    intro h
    rcases mem_insertDesc x a _ h with h1 | h1
    · simp [h1]
    · exact List.mem_cons_of_mem _ (ih h1)

/-- Every position returned by the index search indexes a stored row. -/
theorem searchTop_mem_lt (ix : VectorStore) (q : Vec) (k : Nat) (p : ℚ × Nat)
    (h : p ∈ ix.searchTop q k) : p.2 < ix.vectors.length := by
  unfold VectorStore.searchTop at h
  have h1 := List.mem_of_mem_take h
  have h2 := mem_sortDesc _ _ h1
  obtain ⟨pr, hmem, hpe⟩ := List.mem_map.mp h2
  obtain ⟨i, v⟩ := pr
  have hlt : i < ix.vectors.length := (List.mem_enum hmem).1
  have : p.2 = i := by rw [← hpe]
  rw [this]
  exact hlt

/-- The filtering loop under a valid index: both thresholds succeed and
the stricter threshold keeps a sublist of the laxer one. -/
theorem collect_mono (docs : List Document) (t1 t2 : ℚ) (ht : t1 ≤ t2) :
    ∀ pairs : List (ℚ × Nat), (∀ p ∈ pairs, p.2 < docs.length) →
      ∃ r1 r2, collectResults docs t1 pairs = .ok r1 ∧
        collectResults docs t2 pairs = .ok r2 ∧ r2.Sublist r1 := by
  intro pairs
  induction pairs with
  | nil => exact fun _ => ⟨[], [], rfl, rfl, List.Sublist.refl []⟩
  | cons p rest ih =>
    intro hin
    obtain ⟨s, i⟩ := p
    have hi : i < docs.length := hin (s, i) (by simp)
    obtain ⟨doc, hdoc⟩ : ∃ d, docs[i]? = some d :=
      ⟨docs[i], List.getElem?_eq_getElem hi⟩
    obtain ⟨r1, r2, h1, h2, hsub⟩ := ih (fun pr hpr => hin pr (List.mem_cons_of_mem _ hpr))
    by_cases hc2 : t2 ≤ s
    · have hc1 : t1 ≤ s := le_trans ht hc2
      refine ⟨mkResult doc s :: r1, mkResult doc s :: r2, ?_, ?_, hsub.cons₂ _⟩
      · simp [collectResults, hc1, hdoc, h1]
      · simp [collectResults, hc2, hdoc, h2]
    · by_cases hc1 : t1 ≤ s
      · refine ⟨mkResult doc s :: r1, r2, ?_, ?_, hsub.cons _⟩
        · simp [collectResults, hc1, hdoc, h1]
        · simp [collectResults, hc2, h2]
      · exact ⟨r1, r2, by simp [collectResults, hc1, h1],
          by simp [collectResults, hc2, h2], hsub⟩

/-- C8 (amended): with the vector store aligned to the document list
(no more vectors than documents), raising the threshold shrinks the result
list to a sublist, so it is never larger. -/
theorem C8_amended (w : World) (env : Env) (q : String) (k : Nat) (t1 t2 : ℚ)
    (ht : t1 ≤ t2)
    (halign : ∀ ix, w.sys.vector_store = some ix →
      ix.vectors.length ≤ w.sys.documents.length) :
    (search w env q k t2).Sublist (search w env q k t1) ∧
    (search w env q k t2).length ≤ (search w env q k t1).length := by
  have hsub : (search w env q k t2).Sublist (search w env q k t1) := by
    by_cases hinit : w.sys.is_initialized = true
    · cases he : env.encode q with
      | error e =>
        have hb : ∀ t : ℚ, search w env q k t = [] := by
          intro t
          simp only [search, searchBody, hinit, he, if_true]
        rw [hb t1, hb t2]
      | ok qe =>
        cases hvs : w.sys.vector_store with
        | none =>
          have hb : ∀ t : ℚ, search w env q k t = [] := by
            intro t
            simp only [search, searchBody, hinit, he, hvs, if_true]
          rw [hb t1, hb t2]
        | some ix =>
          by_cases hd : (env.normalize qe).length = ix.dim
          · have hin : ∀ p ∈ ix.searchTop (env.normalize qe) k,
                p.2 < w.sys.documents.length :=
              fun p hp => lt_of_lt_of_le (searchTop_mem_lt ix _ k p hp) (halign ix hvs)
            obtain ⟨r1, r2, h1, h2, hsub⟩ := collect_mono w.sys.documents t1 t2 ht _ hin
            have hb1 : search w env q k t1 = r1 := by
              simp only [search, searchBody, hinit, he, hvs, if_true]
              rw [if_pos hd, h1]
            have hb2 : search w env q k t2 = r2 := by
              simp only [search, searchBody, hinit, he, hvs, if_true]
              rw [if_pos hd, h2]
            rw [hb1, hb2]
            exact hsub
          · have hb : ∀ t : ℚ, search w env q k t = [] := by
              intro t
              simp only [search, searchBody, hinit, he, hvs, if_true]
              rw [if_neg hd]
            rw [hb t1, hb t2]
    · have hb : ∀ t : ℚ, search w env q k t = [] := by
        intro t
        simp only [search, hinit, Bool.false_eq_true, if_false]
      rw [hb t1, hb t2]
  exact ⟨hsub, hsub.length_le⟩

/-- Witness for C8 (amended) on the aligned one-document engine with
thresholds `2/5 ≤ 1/2`. -/
theorem C8_amended_witness :
    (2/5 : ℚ) ≤ 1/2 ∧
    (search worldAB baseEnv "x" 5 (1/2)).Sublist (search worldAB baseEnv "x" 5 (2/5)) ∧
    (search worldAB baseEnv "x" 5 (1/2)).length ≤
      (search worldAB baseEnv "x" 5 (2/5)).length := by
  have ht : (2/5 : ℚ) ≤ 1/2 := by norm_num
  have halign : ∀ ix, worldAB.sys.vector_store = some ix →
      ix.vectors.length ≤ worldAB.sys.documents.length := by
    intro ix h
    have : ix = ⟨1, [[1]]⟩ := (Option.some.inj h).symm
    rw [this]
    decide
  obtain ⟨hs, hl⟩ := C8_amended worldAB baseEnv "x" 5 (2/5) (1/2) ht halign
  exact ⟨ht, hs, hl⟩

/-- C8 is falsified on the code: with a vector store holding more rows
than there are documents (a state reachable through the cache bug of C3),
the lower threshold `2/5` admits the out-of-range position, the result
loop raises `IndexError` and `search` degrades to `[]`, while the higher
threshold `1/2` filters that pair out and returns one result — raising the
threshold increased the result set. -/
theorem C8_counterexample :
    (2/5 : ℚ) ≤ 1/2 ∧
    search misalignedWorld baseEnv "x" 5 (2/5) = [] ∧
    (search misalignedWorld baseEnv "x" 5 (1/2)).length = 1 := by
  norm_num [search, searchBody, misalignedWorld, baseEnv, VectorStore.searchTop, dot,
    insertDesc, collectResults, mkResult, Dict.getD, Dict.get, List.enum, List.enumFrom, docAB]

/-- Looking up the key just written returns the written value. -/
theorem Dict.get_set_self (d : Dict) (k v : String) :
    Dict.get (Dict.set d k v) k = some v := by
  unfold Dict.get Dict.set
  rw [List.find?_append]
  have hnone : (d.filter (fun p => p.1 != k)).find? (fun p => p.1 == k) = none := by
    rw [List.find?_eq_none]
    intro x hx
    have := (List.mem_filter.mp hx).2
    simpa using this
  rw [hnone]
  simp

/-- Filtering out key `k` does not change lookups of a different key. -/
theorem find_filter_ne (d : Dict) (k k' : String) (h : k' ≠ k) :
    (d.filter (fun p => p.1 != k)).find? (fun p => p.1 == k') =
      d.find? (fun p => p.1 == k') := by
  induction d with
  | nil => rfl
  | cons a d ih =>
    by_cases ha : a.1 = k'
    · have h1 : (a.1 == k') = true := by simp [ha]
      have h2 : (a.1 != k) = true := by simp [ha, h]
      simp [List.filter_cons, h2, List.find?_cons, h1]
    · have h1 : (a.1 == k') = false := by simp [ha]
      have h3 : (k == k') = false := by
        simp only [beq_eq_false_iff_ne, ne_eq]
        exact fun hc => h hc.symm
      by_cases h2 : a.1 = k
      · simp [List.filter_cons, h2, List.find?_cons, h1, ih, h3]
      · simp [List.filter_cons, h2, List.find?_cons, h1, ih]

/-- Writing one key leaves lookups of other keys unchanged. -/
theorem Dict.get_set_ne (d : Dict) (k v k' : String) (h : k' ≠ k) :
    Dict.get (Dict.set d k v) k' = Dict.get d k' := by
  unfold Dict.get Dict.set
  rw [List.find?_append, find_filter_ne d k k' h]
  have hone : ([(k, v)].find? (fun p => p.1 == k')) = none := by
    have h3 : (k == k') = false := by
      simp only [beq_eq_false_iff_ne, ne_eq]
      exact fun hc => h hc.symm
    simp [List.find?_cons, h3]
  rw [hone]
  cases d.find? (fun p => p.1 == k') <;> rfl

/-- Characterization of the ingestion loop on a corpus with no
`KeyError` lines: it succeeds, derives the documents record by record in
order, and warns once per unparseable line. -/
theorem processLines_ok (lines : List RawLine) :
    ∀ n, (∀ l ∈ lines, l ≠ RawLine.missingKey) →
      processLines n lines =
        .ok ((lines.enumFrom n).flatMap (fun p => lineDocs p.1 p.2),
             ((lines.enumFrom n).filter (fun p => isInvalid p.2)).map (·.1)) := by
  induction lines with
  | nil => intro n _; simp [processLines]
  | cons l ls ih =>
    intro n hno
    have hl : l ≠ RawLine.missingKey := hno l (by simp)
    have ihok := ih (n + 1) (fun x hx => hno x (List.mem_cons_of_mem _ hx))
    cases l with
    | blank => simp [processLines, ihok, List.enumFrom, lineDocs, isInvalid]
    | invalid => simp [processLines, ihok, List.enumFrom, lineDocs, isInvalid]
    | missingKey => exact absurd rfl hl
    | record p r md => simp [processLines, ihok, List.enumFrom, lineDocs, isInvalid]

/-- The number of warned lines equals the number of unparseable lines. -/
theorem enumFrom_filter_length (lines : List RawLine) :
    ∀ n, (((lines.enumFrom n).filter (fun p => isInvalid p.2)).map (·.1)).length =
      (lines.filter isInvalid).length := by
  induction lines with
  | nil => intro n; rfl
  | cons l ls ih =>
    intro n
    cases hl : isInvalid l <;>
      simp [List.enumFrom, List.filter_cons, hl, ih (n + 1)]

/-- C9: over a corpus of well-formed records and unparseable lines,
ingestion succeeds, derives exactly three documents per well-formed record
(combined, question-only, answer-only — in source order, then derivation
order), counts one warning per unparseable line, and every derived
document carries the record's metadata plus the distinguishing type
tag. -/
theorem C9_ingestion (lines : List RawLine)
    (hok : ∀ l ∈ lines, l ≠ RawLine.missingKey) :
    (∃ docs warns, processLines 1 lines = .ok (docs, warns) ∧
      docs = (lines.enumFrom 1).flatMap (fun p => lineDocs p.1 p.2) ∧
      warns = ((lines.enumFrom 1).filter (fun p => isInvalid p.2)).map (·.1) ∧
      warns.length = (lines.filter isInvalid).length) ∧
    (∀ n p r md,
      (deriveDocs n p r md).length = 3 ∧
      (deriveDocs n p r md).map (·.page_content) =
        ["Вопрос: " ++ p ++ "\nОтвет: " ++ r, p, r] ∧
      (deriveDocs n p r md).map (fun d => Dict.get d.metadata "type") =
        [some "qa_pair", some "question", some "answer"] ∧
      (∀ key, key ≠ "type" → key ≠ "source" → key ≠ "line_number" →
        ∀ d ∈ deriveDocs n p r md, Dict.get d.metadata key = Dict.get md key)) := by
  constructor
  · exact ⟨_, _, processLines_ok lines 1 hok, rfl, rfl, enumFrom_filter_length lines 1⟩
  · intro n p r md
    refine ⟨rfl, rfl, ?_, ?_⟩
    · simp only [deriveDocs, List.map_cons, List.map_nil]
      rw [Dict.get_set_self, Dict.get_set_self, Dict.get_set_self]
    · intro key hkt hks hkl d hd
      have hbase : Dict.get (Dict.set (Dict.set (Dict.set md "source" "knowledge_base")
          "line_number" (toString n)) "type" "qa_pair") key = Dict.get md key := by
        rw [Dict.get_set_ne _ _ _ _ hkt, Dict.get_set_ne _ _ _ _ hkl,
          Dict.get_set_ne _ _ _ _ hks]
      simp only [deriveDocs, List.mem_cons, List.mem_singleton] at hd
      rcases hd with h | h | h | h
      · rw [h]
        exact hbase
      · rw [h]
        show Dict.get (Dict.set _ "type" "question") key = _
        rw [Dict.get_set_ne _ _ _ _ hkt]
        exact hbase
      · rw [h]
        show Dict.get (Dict.set _ "type" "answer") key = _
        rw [Dict.get_set_ne _ _ _ _ hkt]
        exact hbase
      · cases h

/-- Witness for C9 at a two-line corpus (one record, one unparseable
line): ingestion succeeds with the three derived documents and one
warning for line 2. -/
theorem C9_ingestion_witness :
    (∀ l ∈ [RawLine.record "q" "r" [], RawLine.invalid], l ≠ RawLine.missingKey) ∧
    processLines 1 [RawLine.record "q" "r" [], RawLine.invalid] =
      .ok (deriveDocs 1 "q" "r" [], [2]) := by
  have hok : ∀ l ∈ [RawLine.record "q" "r" [], RawLine.invalid],
      l ≠ RawLine.missingKey := by decide
  refine ⟨hok, ?_⟩
  obtain ⟨docs, warns, heq, hdocs, hwarns, _⟩ :=
    (C9_ingestion [RawLine.record "q" "r" [], RawLine.invalid] hok).1
  rw [heq, hdocs, hwarns]
  simp [List.enumFrom, lineDocs, isInvalid]

end RagAdvanced
